import Mathlib

/-!
Verification of the EMG signal-statistics and windowing engine.

The embedding models, over exact rationals (with `Real.sqrt` applied at the
surface where the code calls `np.sqrt` / `Math.sqrt`):

* `calculate_statistics` from `emg_web_report.py` (two-tier raw/trimmed
  statistics bundle, percentile-based outlier trimming gated on `count > 20`);
* `calculate_rms` from `emg_analysis_improved.py`;
* the windowed-mean resampler of `updateIntegratedChart` and the windowed-RMS
  resampler of `updateRMSChart` (horizon truncation to `samplingRate * 10`
  samples, stride `floor(samplingRate * 0.1)`, leading-edge timestamps);
* the Q/B ratio guard of `displayBasicResults`.

Cells of a source column are modelled as `Option ℚ`: `none` is a cell that
fails numeric coercion and is dropped by `pd.to_numeric(...).dropna()`.
-/

namespace EMG

/-- `pd.to_numeric(series, errors='coerce').dropna()`: keep the cells that
coerce to a number, in order. -/
def toNumericDropna (col : List (Option ℚ)) : List ℚ :=
  col.filterMap id

/-- `np.mean`: arithmetic mean (sum divided by length). -/
def mean (xs : List ℚ) : ℚ :=
  xs.sum / (xs.length : ℚ)

/-- `np.mean(xs ** 2)`: mean of the squares, the radicand of the RMS. -/
def meanSq (xs : List ℚ) : ℚ :=
  ((xs.map fun x => x ^ 2).sum) / (xs.length : ℚ)

/-- Radicand of `np.std(xs)`: population variance, mean of squared deviations
from the mean (division by `N`, not `N - 1`; numpy default `ddof=0`). -/
def popVar (xs : List ℚ) : ℚ :=
  ((xs.map fun x => (x - mean xs) ^ 2).sum) / (xs.length : ℚ)

/-- `np.max` on a non-empty series (junk value `0` on the empty list, which the
code never reaches thanks to its empty-series early return). -/
def listMax : List ℚ → ℚ
  | [] => 0
  | x :: xs => xs.foldl max x

/-- `np.min` on a non-empty series (junk value `0` on the empty list). -/
def listMin : List ℚ → ℚ
  | [] => 0
  | x :: xs => xs.foldl min x

/-- `np.percentile(xs, p)` with the default linear-interpolation method:
on the sorted data `s` of length `n`, the virtual index is
`h = (n - 1) * p / 100`, and the result interpolates linearly between
`s[⌊h⌋]` and `s[⌊h⌋ + 1]`. -/
def percentile (xs : List ℚ) (p : ℚ) : ℚ :=
  let s := List.insertionSort (· ≤ ·) xs
  let h : ℚ := ((xs.length : ℚ) - 1) * p / 100
  let i : ℕ := (⌊h⌋).toNat
  let lo := s.getD i 0
  let hi := s.getD (i + 1) lo
  lo + (h - (i : ℚ)) * (hi - lo)

/-- The trimming filter of `calculate_statistics`:
`numeric_series[(numeric_series >= lower_percentile) & (numeric_series <= upper_percentile)]`
with the 2.5th and 97.5th percentiles of the series itself. -/
def trimFilter (xs : List ℚ) : List ℚ :=
  xs.filter fun x => percentile xs 2.5 ≤ x ∧ x ≤ percentile xs 97.5

/-- The statistics bundle returned by `calculate_statistics` in
`emg_web_report.py`: raw fields, trimmed fields, and the number of removed
outliers (an integer difference of two lengths in the code). -/
structure StatBundle where
  RMS : ℝ
  Mean : ℚ
  Std : ℝ
  Max : ℚ
  Min : ℚ
  Count : ℕ
  RMS_filtered : ℝ
  Mean_filtered : ℚ
  Std_filtered : ℝ
  Max_filtered : ℚ
  Min_filtered : ℚ
  Count_filtered : ℕ
  Outliers_removed : ℤ

/-- The all-zero bundle returned for an empty coerced series. -/
def zeroBundle : StatBundle :=
  ⟨0, 0, 0, 0, 0, 0, 0, 0, 0, 0, 0, 0, 0⟩

/-- `calculate_statistics(series, remove_outliers)` from `emg_web_report.py`:
coerce and drop non-numeric cells; empty series short-circuits to the all-zero
bundle; otherwise compute the raw statistics, and the trimmed statistics when
`remove_outliers` holds and the series has more than 20 samples, else copy the
raw fields into the filtered slots with `Outliers_removed = 0`. -/
noncomputable def calculate_statistics (remove_outliers : Bool)
    (col : List (Option ℚ)) : StatBundle :=
  let numeric_series := toNumericDropna col
  if numeric_series = [] then zeroBundle
  else
    let rawRMS : ℝ := Real.sqrt (meanSq numeric_series)
    let rawStd : ℝ := Real.sqrt (popVar numeric_series)
    if remove_outliers ∧ 20 < numeric_series.length then
      let filtered_series := trimFilter numeric_series
      { RMS := rawRMS
        Mean := mean numeric_series
        Std := rawStd
        Max := listMax numeric_series
        Min := listMin numeric_series
        Count := numeric_series.length
        RMS_filtered := Real.sqrt (meanSq filtered_series)
        Mean_filtered := mean filtered_series
        Std_filtered := Real.sqrt (popVar filtered_series)
        Max_filtered := listMax filtered_series
        Min_filtered := listMin filtered_series
        Count_filtered := filtered_series.length
        Outliers_removed := (numeric_series.length : ℤ) - (filtered_series.length : ℤ) }
    else
      { RMS := rawRMS
        Mean := mean numeric_series
        Std := rawStd
        Max := listMax numeric_series
        Min := listMin numeric_series
        Count := numeric_series.length
        RMS_filtered := rawRMS
        Mean_filtered := mean numeric_series
        Std_filtered := rawStd
        Max_filtered := listMax numeric_series
        Min_filtered := listMin numeric_series
        Count_filtered := numeric_series.length
        Outliers_removed := 0 }

/-- `calculate_rms(series)` from `emg_analysis_improved.py`: `0.0` on an empty
coerced series, `np.sqrt(np.mean(series ** 2))` otherwise. -/
noncomputable def calculate_rms (col : List (Option ℚ)) : ℝ :=
  let numeric_series := toNumericDropna col
  if numeric_series = [] then 0
  else Real.sqrt (meanSq numeric_series)

/-- `Math.floor(samplingRate * 0.1)`: the window size in samples for the
0.1-second resampling windows. -/
def windowSize (samplingRate : ℕ) : ℕ :=
  (⌊(samplingRate : ℚ) * 0.1⌋).toNat

/-- One `i += windowSize` step of the chart loops. -/
def loopStep (w i : ℕ) : ℕ :=
  i + w

/-- The common loop skeleton of both chart loops:
`for (i = 0; i < limited.length; i += w) emit (i, limited.slice(i, i + w))`.
Each emitted pair carries the start index of the window and the window itself.
With `w = 0` the JavaScript loop never advances; the recursion is cut off
there so the Lean function is total. -/
def windowLoop (w : ℕ) (i : ℕ) : List ℚ → List (ℕ × List ℚ)
  | [] => []
  | x :: xs =>
    if h : w = 0 then []
    else (i, (x :: xs).take w) :: windowLoop w (i + w) ((x :: xs).drop w)
termination_by xs => xs.length
decreasing_by
  simp only [List.length_drop, List.length_cons]
  omega

/-- The resampling loop of `updateIntegratedChart`: per window, push the
window mean paired with the time `i / samplingRate` of its first sample. -/
def meanLoop (w samplingRate i : ℕ) : List ℚ → List (ℚ × ℚ)
  | [] => []
  | x :: xs =>
    if h : w = 0 then []
    else ((i : ℚ) / (samplingRate : ℚ), mean ((x :: xs).take w))
      :: meanLoop w samplingRate (i + w) ((x :: xs).drop w)
termination_by xs => xs.length
decreasing_by
  simp only [List.length_drop, List.length_cons]
  omega

/-- The RMS loop of `updateRMSChart`: per window, push
`Math.sqrt(sum of squares / length)` paired with the time of the window's
first sample. -/
noncomputable def rmsLoop (w samplingRate i : ℕ) : List ℚ → List (ℚ × ℝ)
  | [] => []
  | x :: xs =>
    if h : w = 0 then []
    else ((i : ℚ) / (samplingRate : ℚ), Real.sqrt (meanSq ((x :: xs).take w)))
      :: rmsLoop w samplingRate (i + w) ((x :: xs).drop w)
termination_by xs => xs.length
decreasing_by
  simp only [List.length_drop, List.length_cons]
  omega

/-- The windowed-mean series of `updateIntegratedChart`: truncate to the first
`min(len, samplingRate * 10)` samples, then run the mean loop with stride
`floor(samplingRate * 0.1)`. -/
def windowedMean (yData : List ℚ) (samplingRate : ℕ) : List (ℚ × ℚ) :=
  meanLoop (windowSize samplingRate) samplingRate 0 (yData.take (samplingRate * 10))

/-- The windowed-RMS series of `updateRMSChart`: same truncation and stride,
RMS reduction per window. -/
noncomputable def windowedRMS (yData : List ℚ) (samplingRate : ℕ) : List (ℚ × ℝ) :=
  rmsLoop (windowSize samplingRate) samplingRate 0 (yData.take (samplingRate * 10))

/-- `sampling_rate = 2000 if config['type'] == 'Noraxon' else 1000` in
`analyze_emg_data`. -/
def sampling_rate (sourceType : String) : ℕ :=
  if sourceType = "Noraxon" then 2000 else 1000

/-- The Q/B-ratio cell of the report table: either the explicit `N/A` marker
or a numeric ratio. -/
inductive RatioCell where
  | na : RatioCell
  | value : ℝ → RatioCell

/-- `bicepRMS !== 0 ? (quadRMS / bicepRMS) : 'N/A'` from `displayBasicResults`
(the `.toFixed(3)` presentation formatting is out of scope). -/
noncomputable def qbRatio (quadRMS bicepRMS : ℝ) : RatioCell :=
  if bicepRMS = 0 then RatioCell.na else RatioCell.value (quadRMS / bicepRMS)

/-- The ratio column of the basic-results table: `analysisResults` stores the
filtered RMS of each channel, and the ratio divides quadriceps by biceps. -/
noncomputable def displayRatio (quadStats bicepStats : StatBundle) : RatioCell :=
  qbRatio quadStats.RMS_filtered bicepStats.RMS_filtered

/-! ### Helper lemmas: `foldl max` / `foldl min` compute the extremum -/

lemma foldl_max_init_le (x : ℚ) (xs : List ℚ) : x ≤ xs.foldl max x := by
  induction xs generalizing x with
  | nil => simp
  | cons a t ih => exact le_trans (le_max_left x a) (ih (max x a))

lemma le_foldl_max_of_mem {y : ℚ} {xs : List ℚ} (x : ℚ) (hy : y ∈ xs) :
    y ≤ xs.foldl max x := by
  induction xs generalizing x with
  | nil => cases hy
  | cons a t ih =>
    rcases List.mem_cons.mp hy with h | h
    · subst h
      exact le_trans (le_max_right x y) (foldl_max_init_le _ t)
    · exact ih _ h

lemma foldl_max_mem (x : ℚ) (xs : List ℚ) :
    xs.foldl max x = x ∨ xs.foldl max x ∈ xs := by
  induction xs generalizing x with
  | nil => left; rfl
  | cons a t ih =>
    rcases ih (max x a) with h | h
    · rcases max_cases x a with ⟨he, _⟩ | ⟨he, _⟩
      · left; rw [List.foldl_cons, h, he]
      · right; rw [List.foldl_cons, h, he]; exact List.mem_cons_self a t
    · right; exact List.mem_cons_of_mem _ h

lemma listMax_mem {xs : List ℚ} (h : xs ≠ []) : listMax xs ∈ xs := by
  match xs with
  | [] => exact absurd rfl h
  | x :: t =>
    rcases foldl_max_mem x t with he | he
    · rw [listMax, he]; exact List.mem_cons_self x t
    · exact List.mem_cons_of_mem _ (by rw [listMax]; exact he)

lemma le_listMax {y : ℚ} {xs : List ℚ} (hy : y ∈ xs) : y ≤ listMax xs := by
  match xs with
  | x :: t =>
    rcases List.mem_cons.mp hy with h | h
    · subst h; exact foldl_max_init_le y t
    · exact le_foldl_max_of_mem x h

lemma le_foldl_min_init (x : ℚ) (xs : List ℚ) : xs.foldl min x ≤ x := by
  induction xs generalizing x with
  | nil => simp
  | cons a t ih => exact le_trans (ih (min x a)) (min_le_left x a)

lemma foldl_min_le_of_mem {y : ℚ} {xs : List ℚ} (x : ℚ) (hy : y ∈ xs) :
    xs.foldl min x ≤ y := by
  induction xs generalizing x with
  | nil => cases hy
  | cons a t ih =>
    rcases List.mem_cons.mp hy with h | h
    · subst h
      exact le_trans (le_foldl_min_init _ t) (min_le_right x y)
    · exact ih _ h

lemma foldl_min_mem (x : ℚ) (xs : List ℚ) :
    xs.foldl min x = x ∨ xs.foldl min x ∈ xs := by
  induction xs generalizing x with
  | nil => left; rfl
  | cons a t ih =>
    rcases ih (min x a) with h | h
    · rcases min_cases x a with ⟨he, _⟩ | ⟨he, _⟩
      · left; rw [List.foldl_cons, h, he]
      · right; rw [List.foldl_cons, h, he]; exact List.mem_cons_self a t
    · right; exact List.mem_cons_of_mem _ h

lemma listMin_mem {xs : List ℚ} (h : xs ≠ []) : listMin xs ∈ xs := by
  match xs with
  | [] => exact absurd rfl h
  | x :: t =>
    rcases foldl_min_mem x t with he | he
    · rw [listMin, he]; exact List.mem_cons_self x t
    · exact List.mem_cons_of_mem _ (by rw [listMin]; exact he)

lemma listMin_le {y : ℚ} {xs : List ℚ} (hy : y ∈ xs) : listMin xs ≤ y := by
  match xs with
  | x :: t =>
    rcases List.mem_cons.mp hy with h | h
    · subst h; exact le_foldl_min_init y t
    · exact foldl_min_le_of_mem x h

/-! ### Helper lemmas: field projections of `calculate_statistics` -/

lemma calc_stats_raw_fields (remove_outliers : Bool) (col : List (Option ℚ))
    (h : toNumericDropna col ≠ []) :
    (calculate_statistics remove_outliers col).RMS
        = Real.sqrt (meanSq (toNumericDropna col)) ∧
    (calculate_statistics remove_outliers col).Mean = mean (toNumericDropna col) ∧
    (calculate_statistics remove_outliers col).Std
        = Real.sqrt (popVar (toNumericDropna col)) ∧
    (calculate_statistics remove_outliers col).Max = listMax (toNumericDropna col) ∧
    (calculate_statistics remove_outliers col).Min = listMin (toNumericDropna col) ∧
    (calculate_statistics remove_outliers col).Count = (toNumericDropna col).length := by
  simp only [calculate_statistics]
  rw [if_neg h]
  split
  · exact ⟨rfl, rfl, rfl, rfl, rfl, rfl⟩
  · exact ⟨rfl, rfl, rfl, rfl, rfl, rfl⟩

lemma calc_stats_trim_fields (col : List (Option ℚ))
    (hlen : 20 < (toNumericDropna col).length) :
    (calculate_statistics true col).RMS_filtered
        = Real.sqrt (meanSq (trimFilter (toNumericDropna col))) ∧
    (calculate_statistics true col).Mean_filtered
        = mean (trimFilter (toNumericDropna col)) ∧
    (calculate_statistics true col).Std_filtered
        = Real.sqrt (popVar (trimFilter (toNumericDropna col))) ∧
    (calculate_statistics true col).Max_filtered
        = listMax (trimFilter (toNumericDropna col)) ∧
    (calculate_statistics true col).Min_filtered
        = listMin (trimFilter (toNumericDropna col)) ∧
    (calculate_statistics true col).Count_filtered
        = (trimFilter (toNumericDropna col)).length ∧
    (calculate_statistics true col).Outliers_removed
        = ((toNumericDropna col).length : ℤ)
            - ((trimFilter (toNumericDropna col)).length : ℤ) := by
  have hne : toNumericDropna col ≠ [] := by
    intro he
    rw [he] at hlen
    simp at hlen
  simp only [calculate_statistics]
  rw [if_neg hne, if_pos ⟨trivial, hlen⟩]
  exact ⟨rfl, rfl, rfl, rfl, rfl, rfl, rfl⟩

/-! ### Claim theorems -/

/-- C3: for every non-empty coerced numeric series of length `N`, the raw
bundle satisfies `rms = sqrt((1/N)·Σ x_i²) ≥ 0`, `mean = (1/N)·Σ x_i`,
`std` is the population standard deviation (division by `N`, not `N − 1`),
`max`/`min` are the greatest/least sample, `count = N`; and the RMS of the
empty series is `0.0`. -/
theorem raw_stats_correct (remove_outliers : Bool) (col : List (Option ℚ))
    (h : toNumericDropna col ≠ []) :
    (calculate_statistics remove_outliers col).RMS
        = Real.sqrt (meanSq (toNumericDropna col)) ∧
    meanSq (toNumericDropna col)
        = (((toNumericDropna col).map fun x => x ^ 2).sum)
            / ((toNumericDropna col).length : ℚ) ∧
    0 ≤ (calculate_statistics remove_outliers col).RMS ∧
    (calculate_statistics remove_outliers col).Mean
        = (toNumericDropna col).sum / ((toNumericDropna col).length : ℚ) ∧
    (calculate_statistics remove_outliers col).Std
        = Real.sqrt (popVar (toNumericDropna col)) ∧
    popVar (toNumericDropna col)
        = (((toNumericDropna col).map fun x =>
              (x - mean (toNumericDropna col)) ^ 2).sum)
            / ((toNumericDropna col).length : ℚ) ∧
    (calculate_statistics remove_outliers col).Max ∈ toNumericDropna col ∧
    (∀ y ∈ toNumericDropna col, y ≤ (calculate_statistics remove_outliers col).Max) ∧
    (calculate_statistics remove_outliers col).Min ∈ toNumericDropna col ∧
    (∀ y ∈ toNumericDropna col, (calculate_statistics remove_outliers col).Min ≤ y) ∧
    (calculate_statistics remove_outliers col).Count = (toNumericDropna col).length ∧
    calculate_rms [] = 0 := by
  obtain ⟨hR, hM, hS, hMx, hMn, hC⟩ := calc_stats_raw_fields remove_outliers col h
  refine ⟨hR, rfl, ?_, hM, hS, rfl, ?_, ?_, ?_, ?_, hC, ?_⟩
  · rw [hR]; exact Real.sqrt_nonneg _
  · rw [hMx]; exact listMax_mem h
  · intro y hy; rw [hMx]; exact le_listMax hy
  · rw [hMn]; exact listMin_mem h
  · intro y hy; rw [hMn]; exact listMin_le hy
  · simp [calculate_rms, toNumericDropna]

/-- Witness for C3 at the concrete series `[3, 4]`. -/
theorem raw_stats_correct_witness :
    toNumericDropna [some 3, some 4] ≠ [] ∧
    ((calculate_statistics true [some 3, some 4]).Count
        = (toNumericDropna [some 3, some 4]).length ∧
      calculate_rms [] = 0) :=
  ⟨by decide,
    (raw_stats_correct true [some 3, some 4] (by decide)).2.2.2.2.2.2.2.2.2.2.1,
    (raw_stats_correct true [some 3, some 4] (by decide)).2.2.2.2.2.2.2.2.2.2.2⟩

/-- C2: for every non-empty coerced numeric series with at most 20 samples,
no trimming happens: every filtered field equals the corresponding raw field
and `Outliers_removed = 0`. -/
theorem no_trim_small_series (col : List (Option ℚ))
    (hne : toNumericDropna col ≠ [])
    (hlen : (toNumericDropna col).length ≤ 20) :
    (calculate_statistics true col).RMS_filtered = (calculate_statistics true col).RMS ∧
    (calculate_statistics true col).Mean_filtered = (calculate_statistics true col).Mean ∧
    (calculate_statistics true col).Std_filtered = (calculate_statistics true col).Std ∧
    (calculate_statistics true col).Max_filtered = (calculate_statistics true col).Max ∧
    (calculate_statistics true col).Min_filtered = (calculate_statistics true col).Min ∧
    (calculate_statistics true col).Count_filtered = (calculate_statistics true col).Count ∧
    (calculate_statistics true col).Outliers_removed = 0 := by
  simp only [calculate_statistics]
  rw [if_neg hne, if_neg (by intro hc; exact absurd hc.2 (not_lt.mpr hlen))]
  exact ⟨rfl, rfl, rfl, rfl, rfl, rfl, rfl⟩

/-- Witness for C2 at the concrete series `[3, 4]`. -/
theorem no_trim_small_series_witness :
    (calculate_statistics true [some 3, some 4]).RMS_filtered
        = (calculate_statistics true [some 3, some 4]).RMS ∧
    (calculate_statistics true [some 3, some 4]).Outliers_removed = 0 :=
  ⟨(no_trim_small_series [some 3, some 4] (by decide) (by decide)).1,
    (no_trim_small_series [some 3, some 4] (by decide) (by decide)).2.2.2.2.2.2⟩

/-- C6: an empty coerced series yields the all-zero statistics bundle, and an
empty input series yields empty windowed-mean and windowed-RMS series — a
valid output, not an error. -/
theorem empty_series_zero_output (remove_outliers : Bool) (col : List (Option ℚ))
    (h : toNumericDropna col = []) (samplingRate : ℕ) :
    calculate_statistics remove_outliers col = zeroBundle ∧
    windowedMean [] samplingRate = [] ∧
    windowedRMS [] samplingRate = [] := by
  refine ⟨?_, ?_, ?_⟩
  · simp only [calculate_statistics]
    rw [if_pos h]
  · simp [windowedMean, meanLoop]
  · simp [windowedRMS, rmsLoop]

/-- Witness for C6 at a column whose only cell fails numeric coercion. -/
theorem empty_series_zero_output_witness :
    calculate_statistics true [none] = zeroBundle ∧
    windowedMean [] 1000 = [] ∧
    windowedRMS [] 1000 = [] :=
  empty_series_zero_output true [none] (by decide) 1000

/-- C7: the report's Q/B ratio cell is the explicit `N/A` marker whenever the
biceps filtered RMS (the denominator) is zero, and the quotient
`quadRMS_filtered / bicepRMS_filtered` otherwise. -/
theorem qb_ratio_guard (quadStats bicepStats : StatBundle) :
    (bicepStats.RMS_filtered = 0 →
      displayRatio quadStats bicepStats = RatioCell.na) ∧
    (bicepStats.RMS_filtered ≠ 0 →
      displayRatio quadStats bicepStats
        = RatioCell.value (quadStats.RMS_filtered / bicepStats.RMS_filtered)) := by
  constructor
  · intro h
    simp only [displayRatio, qbRatio]
    rw [if_pos h]
  · intro h
    simp only [displayRatio, qbRatio]
    rw [if_neg h]

/-- Witness for C7 at two concrete bundles: a zero denominator yields `N/A`,
a unit denominator yields the quotient. -/
theorem qb_ratio_guard_witness :
    displayRatio zeroBundle zeroBundle = RatioCell.na ∧
    displayRatio (⟨0, 0, 0, 0, 0, 0, 1, 0, 0, 0, 0, 0, 0⟩ : StatBundle)
        (⟨0, 0, 0, 0, 0, 0, 1, 0, 0, 0, 0, 0, 0⟩ : StatBundle)
      = RatioCell.value (1 / 1) :=
  ⟨(qb_ratio_guard zeroBundle zeroBundle).1 rfl,
    (qb_ratio_guard _ _).2 one_ne_zero⟩

/-! ### Helper lemmas: the chart windowing loops -/

lemma windowLoop_nil (w i : ℕ) : windowLoop w i [] = [] := by
  simp [windowLoop]

lemma windowLoop_cons (w i : ℕ) (x : ℚ) (t : List ℚ) (hw : w ≠ 0) :
    windowLoop w i (x :: t)
      = (i, (x :: t).take w) :: windowLoop w (i + w) ((x :: t).drop w) := by
  simp only [windowLoop]
  rw [dif_neg hw]

lemma meanLoop_nil (w r i : ℕ) : meanLoop w r i [] = [] := by
  simp [meanLoop]

lemma meanLoop_cons (w r i : ℕ) (x : ℚ) (t : List ℚ) (hw : w ≠ 0) :
    meanLoop w r i (x :: t)
      = ((i : ℚ) / (r : ℚ), mean ((x :: t).take w))
          :: meanLoop w r (i + w) ((x :: t).drop w) := by
  simp only [meanLoop]
  rw [dif_neg hw]

lemma rmsLoop_nil (w r i : ℕ) : rmsLoop w r i [] = [] := by
  simp [rmsLoop]

lemma rmsLoop_cons (w r i : ℕ) (x : ℚ) (t : List ℚ) (hw : w ≠ 0) :
    rmsLoop w r i (x :: t)
      = ((i : ℚ) / (r : ℚ), Real.sqrt (meanSq ((x :: t).take w)))
          :: rmsLoop w r (i + w) ((x :: t).drop w) := by
  simp only [rmsLoop]
  rw [dif_neg hw]

lemma windowLoop_zero_stride (i : ℕ) (xs : List ℚ) : windowLoop 0 i xs = [] := by
  match xs with
  | [] => exact windowLoop_nil 0 i
  | x :: t => simp [windowLoop]

lemma meanLoop_zero_stride (r i : ℕ) (xs : List ℚ) : meanLoop 0 r i xs = [] := by
  match xs with
  | [] => exact meanLoop_nil 0 r i
  | x :: t => simp [meanLoop]

lemma rmsLoop_zero_stride (r i : ℕ) (xs : List ℚ) : rmsLoop 0 r i xs = [] := by
  match xs with
  | [] => exact rmsLoop_nil 0 r i
  | x :: t => simp [rmsLoop]

lemma meanLoop_eq_map_aux (w r : ℕ) :
    ∀ (n : ℕ) (xs : List ℚ), xs.length ≤ n → ∀ (i : ℕ),
      meanLoop w r i xs
        = (windowLoop w i xs).map fun pr => ((pr.1 : ℚ) / (r : ℚ), mean pr.2) := by
  intro n
  induction n with
  | zero =>
    intro xs hn i
    have hx : xs = [] := List.length_eq_zero.mp (Nat.le_zero.mp hn)
    subst hx
    rw [meanLoop_nil, windowLoop_nil, List.map_nil]
  | succ n ih =>
    intro xs hn i
    match xs with
    | [] => rw [meanLoop_nil, windowLoop_nil, List.map_nil]
    | x :: t =>
      by_cases hw : w = 0
      · subst hw
        rw [meanLoop_zero_stride, windowLoop_zero_stride, List.map_nil]
      · rw [meanLoop_cons w r i x t hw, windowLoop_cons w i x t hw, List.map_cons]
        have hlen : ((x :: t).drop w).length ≤ n := by
          simp only [List.length_drop, List.length_cons]
          simp only [List.length_cons] at hn
          omega
        rw [ih _ hlen (i + w)]

lemma meanLoop_eq_map (w r i : ℕ) (xs : List ℚ) :
    meanLoop w r i xs
      = (windowLoop w i xs).map fun pr => ((pr.1 : ℚ) / (r : ℚ), mean pr.2) :=
  meanLoop_eq_map_aux w r xs.length xs le_rfl i

lemma rmsLoop_eq_map_aux (w r : ℕ) :
    ∀ (n : ℕ) (xs : List ℚ), xs.length ≤ n → ∀ (i : ℕ),
      rmsLoop w r i xs
        = (windowLoop w i xs).map fun pr =>
            ((pr.1 : ℚ) / (r : ℚ), Real.sqrt (meanSq pr.2)) := by
  intro n
  induction n with
  | zero =>
    intro xs hn i
    have hx : xs = [] := List.length_eq_zero.mp (Nat.le_zero.mp hn)
    subst hx
    rw [rmsLoop_nil, windowLoop_nil, List.map_nil]
  | succ n ih =>
    intro xs hn i
    match xs with
    | [] => rw [rmsLoop_nil, windowLoop_nil, List.map_nil]
    | x :: t =>
      by_cases hw : w = 0
      · subst hw
        rw [rmsLoop_zero_stride, windowLoop_zero_stride, List.map_nil]
      · rw [rmsLoop_cons w r i x t hw, windowLoop_cons w i x t hw, List.map_cons]
        have hlen : ((x :: t).drop w).length ≤ n := by
          simp only [List.length_drop, List.length_cons]
          simp only [List.length_cons] at hn
          omega
        rw [ih _ hlen (i + w)]

lemma rmsLoop_eq_map (w r i : ℕ) (xs : List ℚ) :
    rmsLoop w r i xs
      = (windowLoop w i xs).map fun pr =>
          ((pr.1 : ℚ) / (r : ℚ), Real.sqrt (meanSq pr.2)) :=
  rmsLoop_eq_map_aux w r xs.length xs le_rfl i

lemma windowLoop_flatten_aux (w : ℕ) (hw : 1 ≤ w) :
    ∀ (n : ℕ) (xs : List ℚ), xs.length ≤ n → ∀ (i : ℕ),
      ((windowLoop w i xs).map Prod.snd).flatten = xs := by
  intro n
  induction n with
  | zero =>
    intro xs hn i
    have hx : xs = [] := List.length_eq_zero.mp (Nat.le_zero.mp hn)
    subst hx
    rw [windowLoop_nil, List.map_nil, List.flatten_nil]
  | succ n ih =>
    intro xs hn i
    match xs with
    | [] => rw [windowLoop_nil, List.map_nil, List.flatten_nil]
    | x :: t =>
      have hw0 : ¬ w = 0 := by omega
      rw [windowLoop_cons w i x t hw0, List.map_cons, List.flatten_cons]
      have hlen : ((x :: t).drop w).length ≤ n := by
        simp only [List.length_drop, List.length_cons]
        simp only [List.length_cons] at hn
        omega
      rw [ih _ hlen (i + w)]
      exact List.take_append_drop w (x :: t)

lemma windowLoop_flatten (w : ℕ) (hw : 1 ≤ w) (i : ℕ) (xs : List ℚ) :
    ((windowLoop w i xs).map Prod.snd).flatten = xs :=
  windowLoop_flatten_aux w hw xs.length xs le_rfl i

lemma windowLoop_windows_ne_nil_aux (w : ℕ) :
    ∀ (n : ℕ) (xs : List ℚ), xs.length ≤ n → ∀ (i : ℕ),
      ∀ pr ∈ windowLoop w i xs, pr.2 ≠ [] := by
  intro n
  induction n with
  | zero =>
    intro xs hn i pr hpr
    have hx : xs = [] := List.length_eq_zero.mp (Nat.le_zero.mp hn)
    subst hx
    rw [windowLoop_nil] at hpr
    cases hpr
  | succ n ih =>
    intro xs hn i pr hpr
    match xs with
    | [] =>
      rw [windowLoop_nil] at hpr
      cases hpr
    | x :: t =>
      by_cases hw : w = 0
      · subst hw
        rw [windowLoop_zero_stride] at hpr
        cases hpr
      · rw [windowLoop_cons w i x t hw] at hpr
        rcases List.mem_cons.mp hpr with h | h
        · subst h
          simp only [ne_eq, List.take_eq_nil_iff]
          intro hc
          rcases hc with hc | hc
          · exact hw hc
          · cases hc
        · have hlen : ((x :: t).drop w).length ≤ n := by
            simp only [List.length_drop, List.length_cons]
            simp only [List.length_cons] at hn
            omega
          exact ih _ hlen (i + w) pr h

lemma windowLoop_windows_ne_nil (w i : ℕ) (xs : List ℚ) :
    ∀ pr ∈ windowLoop w i xs, pr.2 ≠ [] :=
  windowLoop_windows_ne_nil_aux w xs.length xs le_rfl i

lemma windowLoop_get_aux (w : ℕ) (hw : 1 ≤ w) :
    ∀ (n : ℕ) (xs : List ℚ), xs.length ≤ n → ∀ (i k : ℕ),
      k < (windowLoop w i xs).length →
      (windowLoop w i xs).getD k (0, [])
        = (i + k * w, (xs.drop (k * w)).take w) := by
  intro n
  induction n with
  | zero =>
    intro xs hn i k hk
    have hx : xs = [] := List.length_eq_zero.mp (Nat.le_zero.mp hn)
    subst hx
    rw [windowLoop_nil] at hk
    cases hk
  | succ n ih =>
    intro xs hn i k hk
    match xs with
    | [] =>
      rw [windowLoop_nil] at hk
      cases hk
    | x :: t =>
      have hw0 : ¬ w = 0 := by omega
      rw [windowLoop_cons w i x t hw0] at hk ⊢
      match k with
      | 0 => simp
      | k + 1 =>
        have hlen : ((x :: t).drop w).length ≤ n := by
          simp only [List.length_drop, List.length_cons]
          simp only [List.length_cons] at hn
          omega
        have hk' : k < (windowLoop w (i + w) ((x :: t).drop w)).length := by
          simpa using hk
        rw [List.getD_cons_succ, ih _ hlen (i + w) k hk']
        refine congrArg₂ Prod.mk (by ring) ?_
        rw [List.drop_drop]
        have : w + k * w = (k + 1) * w := by ring
        rw [this]

lemma windowLoop_length_aux (w : ℕ) (hw : 1 ≤ w) :
    ∀ (n : ℕ) (xs : List ℚ), xs.length ≤ n → ∀ (i : ℕ),
      (windowLoop w i xs).length = (xs.length + w - 1) / w := by
  intro n
  induction n with
  | zero =>
    intro xs hn i
    have hx : xs = [] := List.length_eq_zero.mp (Nat.le_zero.mp hn)
    subst hx
    rw [windowLoop_nil]
    simp only [List.length_nil, Nat.zero_add]
    exact (Nat.div_eq_of_lt (by omega)).symm
  | succ n ih =>
    intro xs hn i
    match xs with
    | [] =>
      rw [windowLoop_nil]
      simp only [List.length_nil, Nat.zero_add]
      exact (Nat.div_eq_of_lt (by omega)).symm
    | x :: t =>
      have hw0 : ¬ w = 0 := by omega
      rw [windowLoop_cons w i x t hw0]
      have hlen : ((x :: t).drop w).length ≤ n := by
        simp only [List.length_drop, List.length_cons]
        simp only [List.length_cons] at hn
        omega
      rw [List.length_cons, ih _ hlen (i + w)]
      simp only [List.length_drop, List.length_cons]
      rcases le_or_lt (t.length + 1) w with hle | hlt
      · have h1 : t.length + 1 - w = 0 := by omega
        rw [h1]
        have h2 : (0 + w - 1) / w = 0 := Nat.div_eq_of_lt (by omega)
        rw [h2]
        exact (Nat.div_eq_of_lt_le (by omega) (by omega)).symm
      · have h1 : t.length + 1 - w + w - 1 = t.length := by omega
        have h2 : t.length + 1 + w - 1 = t.length + w := by omega
        rw [h1, h2, Nat.add_div_right _ (by omega), Nat.add_comm]

lemma windowLoop_length (w : ℕ) (hw : 1 ≤ w) (i : ℕ) (xs : List ℚ) :
    (windowLoop w i xs).length = (xs.length + w - 1) / w :=
  windowLoop_length_aux w hw xs.length xs le_rfl i

lemma windowSize_eq (rate : ℕ) : windowSize rate = rate / 10 := by
  have h1 : ((rate : ℚ) * 0.1) = (rate : ℚ) / ((10 : ℕ) : ℚ) := by
    rw [show (0.1 : ℚ) = 1 / 10 by norm_num]
    push_cast
    ring
  rw [windowSize, h1, Int.floor_toNat, Nat.floor_div_nat, Nat.floor_natCast]

/-- C4: the windowing engine truncates to the first
`min(len(series), samplingRate·horizon)` samples and partitions the truncated
prefix into consecutive non-overlapping stride-`w` windows in original order
(final partial window emitted when non-empty): the concatenation of the
emitted windows is exactly the truncated prefix, the window lengths sum to
`min(len(series), maxSamples)`, every emitted window is non-empty, and an
empty truncated series yields no windows. -/
theorem windowing_partition (yData : List ℚ) (maxSamples w : ℕ) (hw : 1 ≤ w) :
    ((windowLoop w 0 (yData.take maxSamples)).map Prod.snd).flatten
        = yData.take maxSamples ∧
    (((windowLoop w 0 (yData.take maxSamples)).map fun pr => pr.2.length).sum
        = min yData.length maxSamples) ∧
    (∀ pr ∈ windowLoop w 0 (yData.take maxSamples), pr.2 ≠ []) ∧
    (yData.take maxSamples = [] → windowLoop w 0 (yData.take maxSamples) = []) := by
  have hflat := windowLoop_flatten w hw 0 (yData.take maxSamples)
  refine ⟨hflat, ?_, windowLoop_windows_ne_nil w 0 _, ?_⟩
  · have h1 := List.length_flatten ((windowLoop w 0 (yData.take maxSamples)).map Prod.snd)
    rw [hflat, List.map_map, List.length_take] at h1
    rw [Nat.min_comm]
    simpa [Function.comp] using h1.symm
  · intro h
    rw [h, windowLoop_nil]

/-- Witness for C4 at the series `[1, 2, 3]` with horizon cap 2 and window
size 2: the emitted windows concatenate back to the truncated prefix. -/
theorem windowing_partition_witness :
    ((windowLoop 2 0 (([1, 2, 3] : List ℚ).take 2)).map Prod.snd).flatten
      = ([1, 2, 3] : List ℚ).take 2 :=
  (windowing_partition [1, 2, 3] 2 2 (by decide)).1

/-- C5: every window emitted by the windowed-mean and windowed-RMS resamplers
is labeled by its leading edge: the `k`-th emitted pair carries the timestamp
`(k·windowSize) / samplingRate`, and the `k`-th window is the slice of the
truncated series that starts at sample index `k·windowSize`. -/
theorem window_timestamps (yData : List ℚ) (samplingRate : ℕ)
    (hw : 1 ≤ windowSize samplingRate) :
    ∀ k, k < (windowedMean yData samplingRate).length →
      ((windowedMean yData samplingRate).getD k (0, 0)).1
          = ((k * windowSize samplingRate : ℕ) : ℚ) / (samplingRate : ℚ) ∧
      ((windowedRMS yData samplingRate).getD k (0, 0)).1
          = ((k * windowSize samplingRate : ℕ) : ℚ) / (samplingRate : ℚ) ∧
      (windowLoop (windowSize samplingRate) 0
            (yData.take (samplingRate * 10))).getD k (0, [])
          = (k * windowSize samplingRate,
              ((yData.take (samplingRate * 10)).drop
                  (k * windowSize samplingRate)).take (windowSize samplingRate)) := by
  intro k hk
  have hm : windowedMean yData samplingRate
      = (windowLoop (windowSize samplingRate) 0 (yData.take (samplingRate * 10))).map
          fun pr => ((pr.1 : ℚ) / (samplingRate : ℚ), mean pr.2) :=
    meanLoop_eq_map _ _ _ _
  have hr : windowedRMS yData samplingRate
      = (windowLoop (windowSize samplingRate) 0 (yData.take (samplingRate * 10))).map
          fun pr => ((pr.1 : ℚ) / (samplingRate : ℚ), Real.sqrt (meanSq pr.2)) :=
    rmsLoop_eq_map _ _ _ _
  have hk' : k < (windowLoop (windowSize samplingRate) 0
      (yData.take (samplingRate * 10))).length := by
    rw [hm, List.length_map] at hk
    exact hk
  have hget := windowLoop_get_aux (windowSize samplingRate) hw
    (yData.take (samplingRate * 10)).length (yData.take (samplingRate * 10))
    le_rfl 0 k hk'
  rw [Nat.zero_add] at hget
  refine ⟨?_, ?_, hget⟩
  · rw [hm, List.getD_eq_getElem _ _ (by rw [List.length_map]; exact hk'),
      List.getElem_map, ← List.getD_eq_getElem _ ((0 : ℕ), ([] : List ℚ)) hk', hget]
  · rw [hr, List.getD_eq_getElem _ _ (by rw [List.length_map]; exact hk'),
      List.getElem_map, ← List.getD_eq_getElem _ ((0 : ℕ), ([] : List ℚ)) hk', hget]

/-- Witness for C5: two samples at 10 Hz give stride-1 windows; the first
window carries timestamp `0 / 10` and starts at sample index 0. -/
theorem window_timestamps_witness :
    ((windowedMean [1, 2] 10).getD 0 (0, 0)).1
      = ((0 * windowSize 10 : ℕ) : ℚ) / ((10 : ℕ) : ℚ) :=
  (window_timestamps [1, 2] 10 (by simp [windowSize_eq]) 0 (by
    rw [show windowedMean [1, 2] 10
        = meanLoop (windowSize 10) 10 0 (([1, 2] : List ℚ).take (10 * 10)) from rfl,
      meanLoop_eq_map, List.length_map,
      windowLoop_length (windowSize 10) (by simp [windowSize_eq]) 0]
    simp [windowSize_eq])).1

/-- C8: the windowed-mean and windowed-RMS resamplers use identical
truncation, window boundaries and timestamps — both are images of the same
`windowLoop` decomposition — and differ only in the per-window reduction
(arithmetic mean versus root-mean-square). -/
theorem mean_rms_same_windows (yData : List ℚ) (samplingRate : ℕ) :
    windowedMean yData samplingRate
        = (windowLoop (windowSize samplingRate) 0 (yData.take (samplingRate * 10))).map
            (fun pr => ((pr.1 : ℚ) / (samplingRate : ℚ), mean pr.2)) ∧
    windowedRMS yData samplingRate
        = (windowLoop (windowSize samplingRate) 0 (yData.take (samplingRate * 10))).map
            (fun pr => ((pr.1 : ℚ) / (samplingRate : ℚ), Real.sqrt (meanSq pr.2))) ∧
    (windowedMean yData samplingRate).map Prod.fst
        = (windowedRMS yData samplingRate).map Prod.fst ∧
    (windowedMean yData samplingRate).length
        = (windowedRMS yData samplingRate).length := by
  have hm : windowedMean yData samplingRate
      = (windowLoop (windowSize samplingRate) 0 (yData.take (samplingRate * 10))).map
          fun pr => ((pr.1 : ℚ) / (samplingRate : ℚ), mean pr.2) :=
    meanLoop_eq_map _ _ _ _
  have hr : windowedRMS yData samplingRate
      = (windowLoop (windowSize samplingRate) 0 (yData.take (samplingRate * 10))).map
          fun pr => ((pr.1 : ℚ) / (samplingRate : ℚ), Real.sqrt (meanSq pr.2)) :=
    rmsLoop_eq_map _ _ _ _
  refine ⟨hm, hr, ?_, ?_⟩
  · rw [hm, hr, List.map_map, List.map_map]
    rfl
  · rw [hm, hr, List.length_map, List.length_map]

/-- C10: the chart loops advance by the fixed stride
`windowSize = floor(samplingRate·0.1)`; whenever that stride is at least 1
the loop terminates after `ceil(truncatedLength / windowSize)` iterations
(the number of emitted windows); the rates 1000 Hz and 2000 Hz assigned by
the analysis give strides 100 and 200; any rate below 10 Hz gives stride 0,
for which an `i += windowSize` step does not advance the index. -/
theorem window_stride_termination (yData : List ℚ) (samplingRate : ℕ)
    (hw : 1 ≤ windowSize samplingRate) :
    (windowedMean yData samplingRate).length
        = (min yData.length (samplingRate * 10) + windowSize samplingRate - 1)
            / windowSize samplingRate ∧
    (∀ sourceType, 1 ≤ windowSize (sampling_rate sourceType)) ∧
    windowSize 1000 = 100 ∧
    windowSize 2000 = 200 ∧
    (∀ rate, rate < 10 → windowSize rate = 0) ∧
    (∀ i, loopStep (windowSize samplingRate) i = i + windowSize samplingRate) ∧
    (∀ rate i, rate < 10 → loopStep (windowSize rate) i = i) := by
  refine ⟨?_, ?_, by rw [windowSize_eq], by rw [windowSize_eq], ?_, fun i => rfl, ?_⟩
  · have hm : windowedMean yData samplingRate
        = (windowLoop (windowSize samplingRate) 0 (yData.take (samplingRate * 10))).map
            fun pr => ((pr.1 : ℚ) / (samplingRate : ℚ), mean pr.2) :=
      meanLoop_eq_map _ _ _ _
    rw [hm, List.length_map, windowLoop_length _ hw, List.length_take, Nat.min_comm]
  · intro sourceType
    unfold sampling_rate
    split
    · rw [windowSize_eq]
      omega
    · rw [windowSize_eq]
      omega
  · intro rate hr
    rw [windowSize_eq]
    omega
  · intro rate i hr
    have h0 : windowSize rate = 0 := by
      rw [windowSize_eq]
      omega
    rw [h0]
    rfl

/-- Witness for C10 at the empty series and the 1000 Hz rate. -/
theorem window_stride_termination_witness :
    (windowedMean [] 1000).length
        = (min (List.length ([] : List ℚ)) (1000 * 10) + windowSize 1000 - 1)
            / windowSize 1000 :=
  (window_stride_termination [] 1000 (by simp [windowSize_eq])).1

/-! ### Helper lemmas: percentile interpolation bounds -/

lemma sorted_getD_mono {l : List ℚ} (hs : l.Sorted (· ≤ ·)) {a b : ℕ}
    (hab : a ≤ b) (hb : b < l.length) : l.getD a 0 ≤ l.getD b 0 := by
  have ha : a < l.length := lt_of_le_of_lt hab hb
  rw [List.getD_eq_getElem l 0 ha, List.getD_eq_getElem l 0 hb]
  rcases Nat.lt_or_ge a b with hlt | hge
  · have := List.pairwise_iff_get.mp hs ⟨a, ha⟩ ⟨b, hb⟩ hlt
    simpa [List.get_eq_getElem] using this
  · have hab2 : a = b := le_antisymm hab hge
    subst hab2
    rfl

lemma percentile_virtual_index_nonneg (xs : List ℚ) (p : ℚ) (hp : 0 ≤ p)
    (hxs : xs ≠ []) : 0 ≤ ((xs.length : ℚ) - 1) * p / 100 := by
  have h1 : 1 ≤ xs.length := List.length_pos.mpr hxs
  have h2 : (1 : ℚ) ≤ (xs.length : ℚ) := by exact_mod_cast h1
  have h3 : 0 ≤ (xs.length : ℚ) - 1 := by linarith
  positivity

lemma floor_toNat_cast_le {q : ℚ} (hq : 0 ≤ q) : (((⌊q⌋).toNat : ℕ) : ℚ) ≤ q := by
  have hfl : (0 : ℤ) ≤ ⌊q⌋ := Int.floor_nonneg.mpr hq
  have hcast : (((⌊q⌋).toNat : ℕ) : ℚ) = ((⌊q⌋ : ℤ) : ℚ) := by
    exact_mod_cast Int.toNat_of_nonneg hfl
  rw [hcast]
  exact Int.floor_le q

lemma lt_floor_toNat_cast_add_one {q : ℚ} (hq : 0 ≤ q) :
    q < (((⌊q⌋).toNat : ℕ) : ℚ) + 1 := by
  have hfl : (0 : ℤ) ≤ ⌊q⌋ := Int.floor_nonneg.mpr hq
  have hcast : (((⌊q⌋).toNat : ℕ) : ℚ) = ((⌊q⌋ : ℤ) : ℚ) := by
    exact_mod_cast Int.toNat_of_nonneg hfl
  rw [hcast]
  exact_mod_cast Int.lt_floor_add_one q

lemma getD_le_percentile (xs : List ℚ) (p : ℚ) (hp : 0 ≤ p) (hxs : xs ≠ [])
    (hir : (⌊((xs.length : ℚ) - 1) * p / 100⌋).toNat
        < (List.insertionSort (· ≤ ·) xs).length) :
    (List.insertionSort (· ≤ ·) xs).getD
        ((⌊((xs.length : ℚ) - 1) * p / 100⌋).toNat) 0
      ≤ percentile xs p := by
  have hsort : (List.insertionSort (· ≤ ·) xs).Sorted (· ≤ ·) :=
    List.sorted_insertionSort _ xs
  have hq0 : 0 ≤ ((xs.length : ℚ) - 1) * p / 100 :=
    percentile_virtual_index_nonneg xs p hp hxs
  show (List.insertionSort (· ≤ ·) xs).getD
        ((⌊((xs.length : ℚ) - 1) * p / 100⌋).toNat) 0
      ≤ (List.insertionSort (· ≤ ·) xs).getD
          ((⌊((xs.length : ℚ) - 1) * p / 100⌋).toNat) 0
        + (((xs.length : ℚ) - 1) * p / 100
            - (((⌊((xs.length : ℚ) - 1) * p / 100⌋).toNat : ℕ) : ℚ))
          * ((List.insertionSort (· ≤ ·) xs).getD
                ((⌊((xs.length : ℚ) - 1) * p / 100⌋).toNat + 1)
                ((List.insertionSort (· ≤ ·) xs).getD
                  ((⌊((xs.length : ℚ) - 1) * p / 100⌋).toNat) 0)
              - (List.insertionSort (· ≤ ·) xs).getD
                  ((⌊((xs.length : ℚ) - 1) * p / 100⌋).toNat) 0)
  have hfrac : 0 ≤ ((xs.length : ℚ) - 1) * p / 100
      - (((⌊((xs.length : ℚ) - 1) * p / 100⌋).toNat : ℕ) : ℚ) :=
    sub_nonneg.mpr (floor_toNat_cast_le hq0)
  have hd : 0 ≤ (List.insertionSort (· ≤ ·) xs).getD
        ((⌊((xs.length : ℚ) - 1) * p / 100⌋).toNat + 1)
        ((List.insertionSort (· ≤ ·) xs).getD
          ((⌊((xs.length : ℚ) - 1) * p / 100⌋).toNat) 0)
      - (List.insertionSort (· ≤ ·) xs).getD
          ((⌊((xs.length : ℚ) - 1) * p / 100⌋).toNat) 0 := by
    rcases Nat.lt_or_ge ((⌊((xs.length : ℚ) - 1) * p / 100⌋).toNat + 1)
        (List.insertionSort (· ≤ ·) xs).length with hlt | hge
    · have hmono := sorted_getD_mono hsort
        (Nat.le_succ ((⌊((xs.length : ℚ) - 1) * p / 100⌋).toNat)) hlt
      rw [List.getD_eq_getElem _ _ hlt]
      rw [List.getD_eq_getElem _ _ hlt] at hmono
      linarith
    · rw [List.getD_eq_default _ _ hge]
      linarith
  nlinarith [mul_nonneg hfrac hd]

lemma percentile_le_getD_succ (xs : List ℚ) (p : ℚ) (hp : 0 ≤ p) (hxs : xs ≠ [])
    (hir : (⌊((xs.length : ℚ) - 1) * p / 100⌋).toNat + 1
        < (List.insertionSort (· ≤ ·) xs).length) :
    percentile xs p
      ≤ (List.insertionSort (· ≤ ·) xs).getD
          ((⌊((xs.length : ℚ) - 1) * p / 100⌋).toNat + 1) 0 := by
  have hsort : (List.insertionSort (· ≤ ·) xs).Sorted (· ≤ ·) :=
    List.sorted_insertionSort _ xs
  have hq0 : 0 ≤ ((xs.length : ℚ) - 1) * p / 100 :=
    percentile_virtual_index_nonneg xs p hp hxs
  show (List.insertionSort (· ≤ ·) xs).getD
        ((⌊((xs.length : ℚ) - 1) * p / 100⌋).toNat) 0
      + (((xs.length : ℚ) - 1) * p / 100
          - (((⌊((xs.length : ℚ) - 1) * p / 100⌋).toNat : ℕ) : ℚ))
        * ((List.insertionSort (· ≤ ·) xs).getD
              ((⌊((xs.length : ℚ) - 1) * p / 100⌋).toNat + 1)
              ((List.insertionSort (· ≤ ·) xs).getD
                ((⌊((xs.length : ℚ) - 1) * p / 100⌋).toNat) 0)
            - (List.insertionSort (· ≤ ·) xs).getD
                ((⌊((xs.length : ℚ) - 1) * p / 100⌋).toNat) 0)
      ≤ (List.insertionSort (· ≤ ·) xs).getD
          ((⌊((xs.length : ℚ) - 1) * p / 100⌋).toNat + 1) 0
  have hfrac0 : 0 ≤ ((xs.length : ℚ) - 1) * p / 100
      - (((⌊((xs.length : ℚ) - 1) * p / 100⌋).toNat : ℕ) : ℚ) :=
    sub_nonneg.mpr (floor_toNat_cast_le hq0)
  have hfrac1 : ((xs.length : ℚ) - 1) * p / 100
      - (((⌊((xs.length : ℚ) - 1) * p / 100⌋).toNat : ℕ) : ℚ) ≤ 1 := by
    have := lt_floor_toNat_cast_add_one hq0
    linarith
  have hdef : (List.insertionSort (· ≤ ·) xs).getD
        ((⌊((xs.length : ℚ) - 1) * p / 100⌋).toNat + 1)
        ((List.insertionSort (· ≤ ·) xs).getD
          ((⌊((xs.length : ℚ) - 1) * p / 100⌋).toNat) 0)
      = (List.insertionSort (· ≤ ·) xs).getD
          ((⌊((xs.length : ℚ) - 1) * p / 100⌋).toNat + 1) 0 := by
    rw [List.getD_eq_getElem _ _ hir, List.getD_eq_getElem _ _ hir]
  have hmono := sorted_getD_mono hsort
    (Nat.le_succ ((⌊((xs.length : ℚ) - 1) * p / 100⌋).toNat)) hir
  rw [hdef]
  nlinarith [mul_nonneg hfrac0 (sub_nonneg.mpr hmono),
    mul_le_of_le_one_left (sub_nonneg.mpr hmono) hfrac1]

lemma floor_toNat_eq_nat_div (k m b : ℕ) (q : ℚ)
    (heq : q = ((k * m : ℕ) : ℚ) / ((b : ℕ) : ℚ)) :
    (⌊q⌋).toNat = k * m / b := by
  rw [heq, Int.floor_toNat, Nat.floor_div_nat, Nat.floor_natCast]

lemma trimFilter_ne_nil {xs : List ℚ} (hlen : 20 < xs.length) :
    trimFilter xs ≠ [] := by
  have hxs : xs ≠ [] := by
    intro he
    rw [he] at hlen
    simp at hlen
  have hsort : (List.insertionSort (· ≤ ·) xs).Sorted (· ≤ ·) :=
    List.sorted_insertionSort _ xs
  have hperm : (List.insertionSort (· ≤ ·) xs).Perm xs :=
    List.perm_insertionSort _ xs
  have hslen : (List.insertionSort (· ≤ ·) xs).length = xs.length :=
    hperm.length_eq
  have hxl : (xs.length : ℚ) - 1 = ((xs.length - 1 : ℕ) : ℚ) := by
    have h1 : 1 ≤ xs.length := by omega
    push_cast [h1]
    ring
  -- the two virtual indices, as natural-number divisions
  have hlow : (⌊((xs.length : ℚ) - 1) * 2.5 / 100⌋).toNat = (xs.length - 1) / 40 := by
    have h1 := floor_toNat_eq_nat_div 1 (xs.length - 1) 40
      (((xs.length : ℚ) - 1) * 2.5 / 100)
      (by rw [hxl]; push_cast; ring)
    rw [Nat.one_mul] at h1
    exact h1
  have hhigh : (⌊((xs.length : ℚ) - 1) * 97.5 / 100⌋).toNat
      = 39 * (xs.length - 1) / 40 :=
    floor_toNat_eq_nat_div 39 (xs.length - 1) 40
      (((xs.length : ℚ) - 1) * 97.5 / 100)
      (by rw [hxl]; push_cast; ring)
  -- index arithmetic: with at least 21 samples the two indices are separated
  have hsep : (xs.length - 1) / 40 + 1 ≤ 39 * (xs.length - 1) / 40 := by omega
  have hhir : 39 * (xs.length - 1) / 40 < (List.insertionSort (· ≤ ·) xs).length := by
    rw [hslen]
    omega
  have hlor : (xs.length - 1) / 40 + 1 < (List.insertionSort (· ≤ ·) xs).length := by
    omega
  -- the candidate retained sample: the sorted element just above the lower cut
  have hP25 : percentile xs 2.5
      ≤ (List.insertionSort (· ≤ ·) xs).getD ((xs.length - 1) / 40 + 1) 0 := by
    have := percentile_le_getD_succ xs 2.5 (by norm_num) hxs
      (by rw [hlow]; exact hlor)
    rw [hlow] at this
    exact this
  have hP975 : (List.insertionSort (· ≤ ·) xs).getD (39 * (xs.length - 1) / 40) 0
      ≤ percentile xs 97.5 := by
    have := getD_le_percentile xs 97.5 (by norm_num) hxs
      (by rw [hhigh]; exact lt_of_le_of_lt (by omega) hhir)
    rw [hhigh] at this
    exact this
  have hmono : (List.insertionSort (· ≤ ·) xs).getD ((xs.length - 1) / 40 + 1) 0
      ≤ (List.insertionSort (· ≤ ·) xs).getD (39 * (xs.length - 1) / 40) 0 :=
    sorted_getD_mono hsort hsep hhir
  have hmem : (List.insertionSort (· ≤ ·) xs).getD ((xs.length - 1) / 40 + 1) 0 ∈ xs := by
    apply hperm.subset
    rw [List.getD_eq_getElem _ _ hlor]
    exact List.getElem_mem hlor
  apply List.ne_nil_of_mem (a := (List.insertionSort (· ≤ ·) xs).getD
    ((xs.length - 1) / 40 + 1) 0)
  rw [trimFilter, List.mem_filter]
  refine ⟨hmem, ?_⟩
  simp only [decide_eq_true_eq]
  exact ⟨hP25, le_trans hmono hP975⟩

/-- A fixed 21-sample column used to instantiate the trimming claims. -/
def sample21 : List (Option ℚ) :=
  (List.range 21).map fun n => some (n : ℚ)

/-- C1: for every coerced numeric series with more than 20 samples, trimming
retains exactly the samples lying between the 2.5th and 97.5th
linear-interpolation percentiles of the raw series (inclusive), computes the
filtered rms/mean/std/max/min/count over that retained subset, and sets
`Outliers_removed = count − countFiltered`, so `countFiltered ≤ count` and
`Outliers_removed ≥ 0`. -/
theorem trim_stats_correct (col : List (Option ℚ))
    (hlen : 20 < (toNumericDropna col).length) :
    trimFilter (toNumericDropna col)
        = (toNumericDropna col).filter (fun x =>
            percentile (toNumericDropna col) 2.5 ≤ x ∧
              x ≤ percentile (toNumericDropna col) 97.5) ∧
    (calculate_statistics true col).RMS_filtered
        = Real.sqrt (meanSq (trimFilter (toNumericDropna col))) ∧
    (calculate_statistics true col).Mean_filtered
        = mean (trimFilter (toNumericDropna col)) ∧
    (calculate_statistics true col).Std_filtered
        = Real.sqrt (popVar (trimFilter (toNumericDropna col))) ∧
    (calculate_statistics true col).Max_filtered
        = listMax (trimFilter (toNumericDropna col)) ∧
    (calculate_statistics true col).Min_filtered
        = listMin (trimFilter (toNumericDropna col)) ∧
    (calculate_statistics true col).Count_filtered
        = (trimFilter (toNumericDropna col)).length ∧
    (calculate_statistics true col).Outliers_removed
        = ((calculate_statistics true col).Count : ℤ)
            - ((calculate_statistics true col).Count_filtered : ℤ) ∧
    (calculate_statistics true col).Count_filtered
        ≤ (calculate_statistics true col).Count ∧
    0 ≤ (calculate_statistics true col).Outliers_removed := by
  obtain ⟨hR, hM, hS, hMx, hMn, hC, hO⟩ := calc_stats_trim_fields col hlen
  have hne : toNumericDropna col ≠ [] := by
    intro he
    rw [he] at hlen
    simp at hlen
  have hCount := (calc_stats_raw_fields true col hne).2.2.2.2.2
  have hfle : (trimFilter (toNumericDropna col)).length
      ≤ (toNumericDropna col).length := List.length_filter_le _ _
  refine ⟨rfl, hR, hM, hS, hMx, hMn, hC, ?_, ?_, ?_⟩
  · rw [hO, hC, hCount]
  · rw [hC, hCount]
    exact hfle
  · rw [hO]
    exact sub_nonneg.mpr (by exact_mod_cast hfle)

/-- Witness for C1 at a fixed 21-sample series. -/
theorem trim_stats_correct_witness :
    (calculate_statistics true sample21).Count_filtered
        ≤ (calculate_statistics true sample21).Count ∧
    0 ≤ (calculate_statistics true sample21).Outliers_removed :=
  ⟨(trim_stats_correct sample21 (by decide)).2.2.2.2.2.2.2.2.1,
    (trim_stats_correct sample21 (by decide)).2.2.2.2.2.2.2.2.2⟩

/-- C9: whenever trimming is applied (more than 20 samples), the retained
subset `[P2.5, P97.5]` is non-empty, so the filtered statistics are computed
over at least one sample (`Count_filtered ≥ 1`) and their divisions by the
retained count never divide by zero. -/
theorem trim_retains_sample (col : List (Option ℚ))
    (hlen : 20 < (toNumericDropna col).length) :
    trimFilter (toNumericDropna col) ≠ [] ∧
    0 < (trimFilter (toNumericDropna col)).length ∧
    1 ≤ (calculate_statistics true col).Count_filtered := by
  have h1 : trimFilter (toNumericDropna col) ≠ [] := trimFilter_ne_nil hlen
  have h2 : 0 < (trimFilter (toNumericDropna col)).length := List.length_pos.mpr h1
  have hC := (calc_stats_trim_fields col hlen).2.2.2.2.2.1
  refine ⟨h1, h2, ?_⟩
  rw [hC]
  omega

/-- Witness for C9 at a fixed 21-sample series. -/
theorem trim_retains_sample_witness :
    trimFilter (toNumericDropna sample21) ≠ [] ∧
    1 ≤ (calculate_statistics true sample21).Count_filtered :=
  ⟨(trim_retains_sample sample21 (by decide)).1,
    (trim_retains_sample sample21 (by decide)).2.2⟩

end EMG
